import Mathlib

/-!
Shallow embedding of `lib/collection/src/collection/point_ops.rs` (qdrant):
the distributed read/write coordination layer of a sharded collection.

Collaborator behaviour (per-shard storage calls, shard selection, operation
validation) is modelled as function-valued fields / parameters: this layer
only routes, collects and merges, which is what is embedded here.
Machine integers (`usize`) are modelled as `Nat` with explicit saturation
where the source uses `saturating_add`; the totally ordered order-value
domain (`OrderValue`) is modelled as `Int`.
-/

namespace PointOps

/-- Point id (`PointIdType`); a totally ordered unique key. -/
abbrev PointId := Nat

/-- Shard id (`ShardId`). -/
abbrev ShardId := Nat

/-- Logical shard key (`ShardKey`), opaque at this layer. -/
abbrev ShardKey := Nat

/-- Opaque payload value; this layer only moves or clears it. -/
abbrev Payload := Nat

/-- Order value used by ordered scrolls, modelled as an integer with its
total order (`segment::data_types::order_by::OrderValue`). -/
abbrev OrderValue := Int

/-- Opaque per-shard update result (`UpdateResult`). -/
abbrev UpdateResult := Nat

/-- `usize::MAX` for the 64-bit targets the source is built for. -/
def USIZE_MAX : Nat := 2 ^ 64 - 1

/-- `usize::saturating_add 1` on the `Nat` model of `usize`. -/
def satAdd1 (n : Nat) : Nat := min (n + 1) USIZE_MAX

/-- `segment::types::Filter`, kept abstract: a base predicate tag, or the
conjunction of two filters (`Filter::merge_owned` builds the latter). -/
inductive Filter where
  | base : Nat → Filter
  | conj : Filter → Filter → Filter
deriving DecidableEq

/-- Modelled from the spec: `Filter::merge_owned` (defined outside this
file's source) merges two filters as their logical AND. -/
def Filter.mergeOwned (f g : Filter) : Filter := Filter.conj f g

/-- Modelled from the spec: `super::resharding::merge_filters` (defined
outside this file's source) merges an optional filter with an optional
resharding filter, a logical AND treating `None` as "match everything". -/
def mergeFilters : Option Filter → Option Filter → Option Filter
  | f, none => f
  | none, some g => some g
  | some f, some g => some (f.mergeOwned g)

/-- `CollectionError`, restricted to the variants this layer produces or
inspects. `serviceError` stands for every other (collaborator-produced)
error. -/
inductive CollectionError where
  | badInput : String → CollectionError
  | badRequest : String → CollectionError
  | preConditionFailed : String → CollectionError
  | inconsistentShardFailure : Nat → Nat → CollectionError → CollectionError
  | serviceError : String → CollectionError
deriving DecidableEq

/-- `CollectionResult<T> = Result<T, CollectionError>`. -/
abbrev CollectionResult (α : Type) := Except CollectionError α

instance {ε α : Type} [DecidableEq ε] [DecidableEq α] :
    DecidableEq (Except ε α)
  | .error e1, .error e2 =>
      decidable_of_iff (e1 = e2) ⟨by rintro rfl; rfl, by intro h; injection h⟩
  | .error _, .ok _ => isFalse (fun h => Except.noConfusion h)
  | .ok _, .error _ => isFalse (fun h => Except.noConfusion h)
  | .ok a1, .ok a2 =>
      decidable_of_iff (a1 = a2) ⟨by rintro rfl; rfl, by intro h; injection h⟩

/-- `WriteOrdering`. -/
inductive WriteOrdering where
  | weak | medium | strong
deriving DecidableEq

/-- Clock tag attached to forwarded peer operations. -/
structure ClockTag where
  peer_id : Nat
  clock_id : Nat
  clock_tick : Nat
deriving DecidableEq

/-- `CollectionUpdateOperations`: the mutation payload is opaque
(`op_id`); `validate_result` is the outcome of the collaborator
`validator::Validate` implementation (`none` = valid). -/
structure CollectionUpdateOperations where
  op_id : Nat
  validate_result : Option CollectionError := none
deriving DecidableEq

/-- `operation.validate()`. -/
def CollectionUpdateOperations.validate (op : CollectionUpdateOperations) :
    CollectionResult Unit :=
  match op.validate_result with
  | some e => .error e
  | none => .ok ()

/-- `OperationWithClockTag`. -/
structure OperationWithClockTag where
  operation : CollectionUpdateOperations
  clock_tag : Option ClockTag := none
deriving DecidableEq

/-- `OperationWithClockTag::from(operation)`: wraps with no clock tag. -/
def OperationWithClockTag.fromOp (op : CollectionUpdateOperations) :
    OperationWithClockTag :=
  { operation := op, clock_tag := none }

/-- A locally hosted shard handle (`ShardReplicaSet`) as seen by the write
router: its id and its two collaborator update entry points. -/
structure UpdateShard where
  shard_id : ShardId
  update_local :
    OperationWithClockTag → Bool → CollectionResult (Option UpdateResult)
  update_with_consistency :
    CollectionUpdateOperations → Bool → WriteOrdering →
      CollectionResult UpdateResult

/-- First error in a list of results, in list order. -/
def firstError : List (Except CollectionError α) → Option CollectionError
  | [] => none
  | .error e :: _ => some e
  | .ok _ :: rest => firstError rest

/-- The accumulator loop of `update_all_local` (source lines 64-74): walk
the collected per-shard results, return the first error via `?`, otherwise
keep the first non-`None` success in `result`. -/
def updateAllLocalLoop (acc : Option UpdateResult) :
    List (CollectionResult (Option UpdateResult)) →
      CollectionResult (Option UpdateResult)
  | [] => .ok acc
  | .error e :: _ => .error e
  | .ok u :: rest =>
      updateAllLocalLoop (if acc.isNone && u.isSome then u else acc) rest

/-- `Collection::update_all_local`: apply the operation (wrapped with no
clock tag) to every local shard, collect all outcomes, then fold them with
the source's loop. The `FuturesUnordered` dispatch is modelled by the
per-shard result list; the spawned task always runs every `update_local`
to completion, so the list has one entry per shard. -/
def update_all_local (all_shards : List UpdateShard)
    (operation : CollectionUpdateOperations) (wait : Bool) :
    CollectionResult (Option UpdateResult) :=
  let results := all_shards.map
    (fun shard => shard.update_local (OperationWithClockTag.fromOp operation) wait)
  updateAllLocalLoop none results

/-- `Collection::update_from_peer`: look up the addressed shard; `Weak`
applies `update_local` with the tagged operation unchanged, `Medium` and
`Strong` call `update_with_consistency` on the bare operation (the clock
tag is dropped, after a logged warning). A missing shard, or an update
that yields no result, becomes `PreconditionFailed`. -/
def update_from_peer (get_shard : ShardId → Option UpdateShard)
    (operation : OperationWithClockTag) (shard_selection : ShardId)
    (wait : Bool) (ordering : WriteOrdering) :
    CollectionResult UpdateResult :=
  let inner : CollectionResult (Option UpdateResult) :=
    match get_shard shard_selection with
    | none => .ok none
    | some shard =>
        match ordering with
        | .weak => shard.update_local operation wait
        | .medium | .strong =>
            (shard.update_with_consistency operation.operation wait ordering).map
              (fun r => some r)
  match inner with
  | .error e => .error e
  | .ok (some result) => .ok result
  | .ok none =>
      .error (.preConditionFailed
        ("No target shard " ++ toString shard_selection ++ " found for update"))

/-- Count of `Err` entries (`results.iter().filter(|r| r.is_err()).count()`). -/
def countErrors (results : List (Except CollectionError α)) : Nat :=
  results.countP (fun r => match r with | .error _ => true | .ok _ => false)

/-- The outcome classification of `update_from_client` (source lines
164-195): empty ⇒ bad request; some but not all failed ⇒
`InconsistentShardFailure` around the first error; all failed ⇒ the first
error unwrapped; none failed ⇒ `results.pop().unwrap()`, the last result. -/
def classifyClientResults
    (results : List (CollectionResult UpdateResult)) :
    CollectionResult UpdateResult :=
  if results.isEmpty then
    .error (.badRequest "Empty update request")
  else
    match firstError results with
    | some err =>
        let with_error := countErrors results
        if with_error < results.length then
          .error (.inconsistentShardFailure results.length with_error err)
        else
          .error err
    | none => (results.getLast?).getD (.error (.badRequest "Empty update request"))

/-- `Collection::update_from_client`: validate, split the operation across
the shards addressed by the shard-key selection (a collaborator call that
may itself fail), dispatch every sub-operation through
`update_with_consistency`, and classify the collected outcomes. -/
def update_from_client
    (split_by_shard : CollectionUpdateOperations → Option ShardKey →
      CollectionResult (List (UpdateShard × CollectionUpdateOperations)))
    (operation : CollectionUpdateOperations) (wait : Bool)
    (ordering : WriteOrdering) (shard_keys_selection : Option ShardKey) :
    CollectionResult UpdateResult :=
  match operation.validate with
  | .error e => .error e
  | .ok _ =>
      match split_by_shard operation shard_keys_selection with
      | .error e => .error e
      | .ok pairs =>
          classifyClientResults
            (pairs.map (fun p => p.1.update_with_consistency p.2 wait ordering))

/-- A fetched point (`Record`): unique id, optional payload, optional
order value, optional shard key (stamped post-fetch). -/
structure Record where
  id : PointId
  payload : Option Payload := none
  order_value : Option OrderValue := none
  shard_key : Option ShardKey := none
deriving DecidableEq

/-- `WithPayloadInterface`, reduced to what this layer inspects: whether
any payload is required (`is_required`). -/
abbrev WithPayloadI := Bool

/-- `WithPayloadInterface::is_required`. -/
def WithPayloadI.isRequired (w : WithPayloadI) : Bool := w

/-- Scroll direction (`order_by::Direction`). -/
inductive Direction where
  | asc | desc
deriving DecidableEq

/-- Ordering spec (`OrderBy`): the direction plus the two collaborator
payload accessors this layer calls (`get_order_value_from_payload`, and
`remove_order_value_from_payload` returning the removed value and the
mutated payload). -/
structure OrderBy where
  direction : Direction
  getOVFromPayload : Option Payload → OrderValue
  removeOVFromPayload : Option Payload → OrderValue × Option Payload

/-- `ScrollRequestInternal`. -/
structure ScrollRequestInternal where
  offset : Option PointId := none
  limit : Option Nat := none
  filter : Option Filter := none
  with_payload : Option WithPayloadI := none
  with_vector : Bool := false
  order_by : Option OrderBy := none

/-- Modelled from the spec: `ScrollRequestInternal::default()` (defined
outside this file's source) carries a fixed nonzero default limit. -/
def defaultScrollLimit : Nat := 10

/-- Modelled from the spec: `ScrollRequestInternal::default()` requests
payloads (`with_payload = Some(true)`). -/
def defaultWithPayload : WithPayloadI := true

/-- `ScrollResult`. -/
structure ScrollResult where
  points : List Record
  next_page_offset : Option PointId
deriving DecidableEq

/-- Shard handle as seen by `scroll_by`: its id plus the collaborator
scroll entry point, taking (id offset, limit, with-payload, with-vector,
effective filter, local-only flag, ordering spec). Read consistency and
timeout are passed through unchanged by the source and are omitted. -/
structure ScrollShard where
  shard_id : ShardId
  scrollFn : Option PointId → Nat → WithPayloadI → Bool → Option Filter →
    Bool → Option OrderBy → List Record

/-- `normal_and_resharding_filter` (source lines 531-543). -/
def normal_and_resharding_filter :
    Option Filter → Option Filter → Option Filter × Option Filter
  | f, none => (f, none)
  | some f, some rf => (some f, some (f.mergeOwned rf))
  | none, some rf => (none, some rf)

/-- Two-way merge taking the right head first exactly when `lt` says it is
strictly smaller, as the binary step of itertools' `kmerge_by`. -/
def merge2 (lt : α → α → Bool) : List α → List α → List α
  | [], l2 => l2
  | a :: as_, [] => a :: as_
  | a :: as_, b :: bs =>
      if lt b a then b :: merge2 lt (a :: as_) bs
      else a :: merge2 lt as_ (b :: bs)
termination_by l1 l2 => l1.length + l2.length

/-- k-way merge of pre-sorted lists (`Itertools::kmerge_by`). -/
def kmergeBy (lt : α → α → Bool) (lists : List (List α)) : List α :=
  lists.foldr (merge2 lt) []

/-- Adjacent deduplication keeping the first of each run
(`Itertools::dedup_by`). -/
def dedupBy (eq : α → α → Bool) : List α → List α
  | [] => []
  | [a] => [a]
  | a :: b :: rest =>
      if eq a b then dedupBy eq (a :: rest) else a :: dedupBy eq (b :: rest)
termination_by l => l.length

/-- `sorted_unstable_by_key(|point| point.id)`, modelled with a merge
sort; the claims proved below do not depend on how equal ids are ordered. -/
def sortById (l : List Record) : List Record :=
  l.mergeSort (fun a b => a.id ≤ b.id)

/-- The comparator of the ordered k-way merge (source lines 341-346):
`(value_a, record_a.id) < (value_b, record_b.id)` for ascending order,
the mirrored `>` for descending. -/
def keyLT (dir : Direction) (a b : OrderValue × Record) : Bool :=
  match dir with
  | .asc => a.1 < b.1 || (a.1 == b.1 && a.2.id < b.2.id)
  | .desc => b.1 < a.1 || (a.1 == b.1 && b.2.id < a.2.id)

/-- Non-strict companion of `keyLT`, as a proposition. -/
def keyLE (dir : Direction) (a b : OrderValue × Record) : Prop :=
  keyLT dir b a = false

instance (dir : Direction) (a b : OrderValue × Record) :
    Decidable (keyLE dir a b) :=
  instDecidableEqBool (keyLT dir b a) false

/-- Order-value extraction of the ordered scroll (source lines 315-338):
prefer `record.order_value`; otherwise read the value out of the payload.
In non-local-only mode the value is removed from the returned payload,
and the payload is cleared entirely when no payload was requested. -/
def extractOrderValue (ob : OrderBy) (localOnly : Bool)
    (withPayloadRequired : Bool) (record : Record) : OrderValue × Record :=
  if localOnly then
    (record.order_value.getD (ob.getOVFromPayload record.payload), record)
  else
    let vr : OrderValue × Record :=
      match record.order_value with
      | some order_value =>
          (order_value,
            { record with payload := (ob.removeOVFromPayload record.payload).2 })
      | none =>
          let rp := ob.removeOVFromPayload record.payload
          (rp.1, { record with payload := rp.2 })
    if withPayloadRequired then vr
    else (vr.1, { vr.2 with payload := none })

/-- Stamp the shard's logical shard key on its records (source lines
288-296): records are returned unchanged when the shard has no key. -/
def stampShardKey (shard_key : Option ShardKey) (records : List Record) :
    List Record :=
  match shard_key with
  | none => records
  | some _ => records.map (fun p => { p with shard_key := shard_key })

/-- Per-shard effective filter of `scroll_by` (source lines 270-273): the
resharding-merged filter on every shard other than the migration target,
the normal filter otherwise. -/
def effectiveScrollFilter (pair : Option Filter × Option Filter)
    (shard_id : ShardId) (reshardShardId : Option ShardId) : Option Filter :=
  match pair.2 with
  | some rf => if some shard_id ≠ reshardShardId then some rf else pair.1
  | none => pair.1

/-- The records one shard contributes to a scroll, shard key stamped. -/
def scrollShardRecords (id_offset : Option PointId) (limit : Nat)
    (wp : WithPayloadI) (with_vector : Bool)
    (pair : Option Filter × Option Filter) (reshardShardId : Option ShardId)
    (localOnly : Bool) (order_by : Option OrderBy)
    (sk : ScrollShard × Option ShardKey) : List Record :=
  stampShardKey sk.2
    (sk.1.scrollFn id_offset limit wp with_vector
      (effectiveScrollFilter pair sk.1.shard_id reshardShardId)
      localOnly order_by)

/-- The flattened, id-sorted, adjacently-deduplicated point list of an
unordered scroll, before truncation. -/
def unorderedDeduped (retrieved : List (List Record)) : List Record :=
  dedupBy (fun a b => a.id == b.id) (sortById retrieved.flatten)

/-- Merge step of an unordered scroll (source lines 304-311): flatten,
sort ascending by id, drop adjacent duplicate ids, truncate. -/
def unorderedScrollMerge (limit : Nat) (retrieved : List (List Record)) :
    List Record :=
  (unorderedDeduped retrieved).take limit

/-- Per-shard keyed record lists of an ordered scroll: each record paired
with its extracted order value. -/
def orderedKeyed (ob : OrderBy) (localOnly : Bool) (wp : WithPayloadI)
    (retrieved : List (List Record)) : List (List (OrderValue × Record)) :=
  retrieved.map (List.map (extractOrderValue ob localOnly wp.isRequired))

/-- The k-way merged keyed stream of an ordered scroll. -/
def orderedMerged (ob : OrderBy) (localOnly : Bool) (wp : WithPayloadI)
    (retrieved : List (List Record)) : List (OrderValue × Record) :=
  kmergeBy (keyLT ob.direction) (orderedKeyed ob localOnly wp retrieved)

/-- The merged keyed stream after adjacent deduplication by point id. -/
def orderedDeduped (ob : OrderBy) (localOnly : Bool) (wp : WithPayloadI)
    (retrieved : List (List Record)) : List (OrderValue × Record) :=
  dedupBy (fun a b => a.2.id == b.2.id) (orderedMerged ob localOnly wp retrieved)

/-- Merge step of an ordered scroll (source lines 312-352): extract order
values, k-way merge by `(order value, id)` per direction, drop adjacent
duplicate ids, project the records back out, truncate. -/
def orderedScrollMerge (ob : OrderBy) (localOnly : Bool)
    (wp : WithPayloadI) (limit : Nat) (retrieved : List (List Record)) :
    List Record :=
  ((orderedDeduped ob localOnly wp retrieved).map Prod.snd).take limit

/-- `Collection::scroll_by`. `selectResult` is the outcome of the
collaborator `select_shards` call; `localOnly` is
`shard_selection.is_shard_id()`. -/
def scroll_by
    (selectResult : CollectionResult (List (ScrollShard × Option ShardKey)))
    (reshardingFilter : Option Filter) (reshardShardId : Option ShardId)
    (request : ScrollRequestInternal) (localOnly : Bool) :
    CollectionResult ScrollResult :=
  let id_offset := request.offset
  let limit0 := request.limit.getD defaultScrollLimit
  let wp := request.with_payload.getD defaultWithPayload
  let order_by := request.order_by
  if order_by.isSome && id_offset.isSome then
    .error (.badInput
      "Cannot use an `offset` when using `order_by`. The alternative for paging is to use `order_by.start_from` and a filter to exclude the IDs that you have already seen for the `order_by.start_from` value")
  else if limit0 == 0 then
    .error (.badRequest "Limit cannot be 0")
  else
    -- `order_by` does not support offset; otherwise ask for one extra point
    -- to detect the next page (`limit.saturating_add(1)`).
    let limit := if order_by.isNone then satAdd1 limit0 else limit0
    match selectResult with
    | .error e => .error e
    | .ok targetShards =>
        let pair := normal_and_resharding_filter request.filter reshardingFilter
        let retrieved := targetShards.map
          (scrollShardRecords id_offset limit wp request.with_vector pair
            reshardShardId localOnly order_by)
        let points :=
          match order_by with
          | none => unorderedScrollMerge limit retrieved
          | some ob => orderedScrollMerge ob localOnly wp limit retrieved
        if points.length < limit || order_by.isSome then
          .ok { points := points, next_page_offset := none }
        else
          .ok { points := points.dropLast,
                next_page_offset := (points.getLast?).map (fun p => p.id) }

/-- `CountRequestInternal`. -/
structure CountRequestInternal where
  filter : Option Filter := none
  exact : Bool := true
deriving DecidableEq

/-- Shard handle as seen by `count`: its id plus the collaborator count
entry point on the routed request. Read consistency, timeout and the
local-only flag are passed through unchanged and omitted here; the
per-shard count is the collaborator's answer. -/
structure CountShard where
  shard_id : ShardId
  countFn : CountRequestInternal → Nat

/-- `normal_and_resharding_count_request` (source lines 509-520): the
original request, paired with the request whose filter has the resharding
filter merged in (`None` when resharding is inactive). -/
def normal_and_resharding_count_request (request : CountRequestInternal)
    (reshardingFilter : Option Filter) :
    CountRequestInternal × Option CountRequestInternal :=
  match reshardingFilter with
  | none => (request, none)
  | some rf =>
      (request, some { request with filter := mergeFilters request.filter (some rf) })

/-- The request `count` routes to one shard (source lines 394-400): the
resharding variant on every shard other than the migration target, the
original otherwise. -/
def countShardRequest (pair : CountRequestInternal × Option CountRequestInternal)
    (shard_id : ShardId) (reshardShardId : Option ShardId) :
    CountRequestInternal :=
  match pair.2 with
  | some r => if some shard_id ≠ reshardShardId then r else pair.1
  | none => pair.1

/-- `Collection::count`: build the normal/resharding request pair, route
one variant to each selected shard, and sum the per-shard counts. -/
def count (shards : List (CountShard × Option ShardKey))
    (reshardingFilter : Option Filter) (reshardShardId : Option ShardId)
    (request : CountRequestInternal) : Nat :=
  let pair := normal_and_resharding_count_request request reshardingFilter
  (shards.map (fun sk =>
    sk.1.countFn (countShardRequest pair sk.1.shard_id reshardShardId))).sum

/-- `PointRequestInternal`: explicit id list plus selectors, all opaque to
the routing logic embedded here. -/
structure PointRequestInternal where
  ids : List PointId
  with_payload : Option WithPayloadI := none
  with_vector : Bool := false
deriving DecidableEq

/-- Shard handle as seen by `retrieve`: its id plus the collaborator
retrieve entry point on the (unmodified) request. -/
structure RetrieveShard where
  shard_id : ShardId
  retrieveFn : PointRequestInternal → List Record

/-- The records one shard contributes to `retrieve` (source lines
445-482): fetch with the unmodified request; when resharding is active and
the shard is not the migration target, drop every record whose id
satisfies the resharding exclusion predicate; then stamp the shard key. -/
def retrieveShardRecords (request : PointRequestInternal)
    (reshardingCheck : Option (PointId → Bool))
    (reshardShardId : Option ShardId)
    (sk : RetrieveShard × Option ShardKey) : List Record :=
  let records := sk.1.retrieveFn request
  let records :=
    match reshardingCheck with
    | some check =>
        if some sk.1.shard_id ≠ reshardShardId then
          records.filter (fun record => !check record.id)
        else records
    | none => records
  stampShardKey sk.2 records

/-- The `HashSet`-based first-occurrence deduplication of `retrieve`
(source lines 488-494): keep a record iff its id was not seen before. -/
def dedupFirstById (seen : List PointId) : List Record → List Record
  | [] => []
  | r :: rest =>
      if r.id ∈ seen then dedupFirstById seen rest
      else r :: dedupFirstById (r.id :: seen) rest

/-- `Collection::retrieve`: fetch from every selected shard, post-filter
and stamp per shard, flatten, and keep each point id at most once (first
occurrence wins). `reshardingCheck` is the `resharding_filter_impl`
id predicate. -/
def retrieve (targetShards : List (RetrieveShard × Option ShardKey))
    (reshardingCheck : Option (PointId → Bool))
    (reshardShardId : Option ShardId)
    (request : PointRequestInternal) : List Record :=
  dedupFirstById []
    ((targetShards.map
      (retrieveShardRecords request reshardingCheck reshardShardId)).flatten)

/-- First non-`None` success in a list of per-shard results, in list
order: the value `update_all_local`'s loop keeps when no result is an
error. -/
def firstSomeOk :
    List (CollectionResult (Option UpdateResult)) → Option UpdateResult
  | [] => none
  | .ok (some x) :: _ => some x
  | _ :: rest => firstSomeOk rest

/-! Concrete fixtures used by witness and counterexample theorems. -/

/-- Ascending ordering spec with trivial payload accessors: reading a
missing order value yields `0`, removing one leaves the payload intact. -/
def fixOb : OrderBy := ⟨Direction.asc, fun _ => 0, fun p => (0, p)⟩

/-- Shard holding one record, id 1 with order value 1. -/
def fixShardA : ScrollShard :=
  ⟨0, fun _ _ _ _ _ _ _ => [{ id := 1, order_value := some 1 }]⟩

/-- Shard holding records (id 2, value 2) and (id 1, value 3): the same
point id as `fixShardA` but with a different order value. -/
def fixShardB : ScrollShard :=
  ⟨1, fun _ _ _ _ _ _ _ =>
    [{ id := 2, order_value := some 2 }, { id := 1, order_value := some 3 }]⟩

/-- Ordered scroll request with limit 3 over `fixOb`. -/
def fixOrderedReq : ScrollRequestInternal :=
  { limit := some 3, order_by := some fixOb }

/-- Shard holding records (id 1, value 1) and (id 2, value 2). -/
def fixShardC : ScrollShard :=
  ⟨2, fun _ _ _ _ _ _ _ =>
    [{ id := 1, order_value := some 1 }, { id := 2, order_value := some 2 }]⟩

/-- Shard holding one record, id 1 with order value 1 (an equal-value
duplicate of `fixShardC`'s first record). -/
def fixShardD : ScrollShard :=
  ⟨3, fun _ _ _ _ _ _ _ => [{ id := 1, order_value := some 1 }]⟩

/-- Unordered-scroll shard holding ids 5, 1, 9 (truncated to the limit it
is asked for). -/
def fixShardU1 : ScrollShard :=
  ⟨0, fun _ lim _ _ _ _ _ =>
    (([5, 1, 9] : List PointId).map (fun i => ({ id := i } : Record))).take lim⟩

/-- Unordered-scroll shard holding ids 2, 5, 7. -/
def fixShardU2 : ScrollShard :=
  ⟨1, fun _ lim _ _ _ _ _ =>
    (([2, 5, 7] : List PointId).map (fun i => ({ id := i } : Record))).take lim⟩

/-- Unordered scroll request with limit 2. -/
def fixUnorderedReq : ScrollRequestInternal := { limit := some 2 }

/-- Update shard whose `update_local` result records whether the clock
tag reached it (op id plus the clock tick), and whose
`update_with_consistency` result is the bare op id. -/
def fixPeerShard : UpdateShard :=
  ⟨0,
    fun op _ =>
      .ok (some (op.operation.op_id + (op.clock_tag.elim 0 (fun t => t.clock_tick)))),
    fun op _ _ => .ok op.op_id⟩

/-- Shard map holding only `fixPeerShard` at id 0. -/
def fixGetShard : ShardId → Option UpdateShard :=
  fun i => if i = 0 then some fixPeerShard else none

/-- A clock-tagged operation with op id 41 and clock tick 3. -/
def fixTaggedOp : OperationWithClockTag :=
  { operation := { op_id := 41 }, clock_tag := some ⟨1, 2, 3⟩ }

/-- Update shard that always succeeds with result 10. -/
def fixOkShard : UpdateShard :=
  ⟨0, fun _ _ => .ok (some 10), fun _ _ _ => .ok 10⟩

/-- Update shard that always fails with a service error. -/
def fixErrShard : UpdateShard :=
  ⟨1, fun _ _ => .error (.serviceError "boom"),
    fun _ _ _ => .error (.serviceError "boom")⟩

/-- Splitter dispatching the operation to `fixOkShard` and `fixErrShard`. -/
def fixSplit2 (op : CollectionUpdateOperations) (_ : Option ShardKey) :
    CollectionResult (List (UpdateShard × CollectionUpdateOperations)) :=
  .ok [(fixOkShard, op), (fixErrShard, op)]

/-- Retrieve shard 0 (an old, non-target shard) holding ids 5 and 3. -/
def fixRetOld : RetrieveShard :=
  ⟨0, fun _ => [{ id := 5 }, { id := 3 }]⟩

/-- Retrieve shard 1 (the migration target) holding id 5 with a payload
marking it as the target's copy. -/
def fixRetTgt : RetrieveShard :=
  ⟨1, fun _ => [{ id := 5, payload := some 99 }]⟩

/-- Resharding predicate: true exactly on id 5 (already migrated). -/
def fixCheck : PointId → Bool := fun i => i == 5

/-- Point request for ids 5 and 3. -/
def fixPointReq : PointRequestInternal := { ids := [5, 3] }

/-! ### General lemmas about the merge primitives -/

theorem mem_merge2 {α : Type} (lt : α → α → Bool) (x : α) :
    ∀ (l1 l2 : List α), x ∈ merge2 lt l1 l2 ↔ x ∈ l1 ∨ x ∈ l2 := by
  intro l1 l2
  induction l1, l2 using merge2.induct lt with
  | case1 l2 => simp [merge2]
  | case2 a as_ => simp [merge2]
  | case3 a as_ b bs hlt ih =>
      simp [merge2, hlt, ih]
      tauto
  | case4 a as_ b bs hlt ih =>
      simp [merge2, hlt, ih]
      tauto

theorem merge2_pairwise {α : Type} (lt : α → α → Bool)
    (hasymm : ∀ a b, lt a b = true → lt b a = false)
    (hltrans : ∀ a b c, lt a b = true → lt b c = true → lt a c = true)
    (hletrans : ∀ a b c, lt b a = false → lt c b = false → lt c a = false) :
    ∀ (l1 l2 : List α), l1.Pairwise (fun a b => lt b a = false) →
      l2.Pairwise (fun a b => lt b a = false) →
      (merge2 lt l1 l2).Pairwise (fun a b => lt b a = false) := by
  intro l1 l2
  induction l1, l2 using merge2.induct lt with
  | case1 l2 => intro _ h2; simpa [merge2] using h2
  | case2 a as_ => intro h1 _; simpa [merge2] using h1
  | case3 a as_ b bs hlt ih =>
      intro h1 h2
      rw [List.pairwise_cons] at h2
      obtain ⟨hb, hbs⟩ := h2
      have hm : merge2 lt (a :: as_) (b :: bs) = b :: merge2 lt (a :: as_) bs := by
        simp [merge2, hlt]
      rw [hm, List.pairwise_cons]
      refine ⟨?_, ih h1 hbs⟩
      intro x hx
      rcases (mem_merge2 lt x _ _).mp hx with hxl | hxr
      · rcases List.mem_cons.mp hxl with rfl | hxs
        · exact hasymm _ _ hlt
        · rw [List.pairwise_cons] at h1
          by_contra hc
          have hxb : lt x b = true := by
            cases hb2 : lt x b
            · exact absurd hb2 (by simp [hc])
            · rfl
          have := hltrans x b a hxb hlt
          rw [h1.1 x hxs] at this
          exact absurd this (by simp)
      · exact hb x hxr
  | case4 a as_ b bs hlt ih =>
      intro h1 h2
      rw [List.pairwise_cons] at h1
      obtain ⟨ha, has⟩ := h1
      have hba : lt b a = false := by
        cases hb2 : lt b a
        · rfl
        · exact absurd hb2 hlt
      have hm : merge2 lt (a :: as_) (b :: bs) = a :: merge2 lt as_ (b :: bs) := by
        simp [merge2, hlt]
      rw [hm, List.pairwise_cons]
      refine ⟨?_, ih has h2⟩
      intro x hx
      rcases (mem_merge2 lt x _ _).mp hx with hxl | hxr
      · exact ha x hxl
      · rcases List.mem_cons.mp hxr with rfl | hxs
        · exact hba
        · rw [List.pairwise_cons] at h2
          exact hletrans a b x hba (h2.1 x hxs)

theorem mem_kmergeBy {α : Type} (lt : α → α → Bool) (x : α) :
    ∀ (ls : List (List α)), x ∈ kmergeBy lt ls ↔ ∃ l ∈ ls, x ∈ l := by
  intro ls
  induction ls with
  | nil => simp [kmergeBy]
  | cons l ls ih =>
      have h : kmergeBy lt (l :: ls) = merge2 lt l (kmergeBy lt ls) := rfl
      rw [h, mem_merge2, ih]
      simp

theorem kmergeBy_pairwise {α : Type} (lt : α → α → Bool)
    (hasymm : ∀ a b, lt a b = true → lt b a = false)
    (hltrans : ∀ a b c, lt a b = true → lt b c = true → lt a c = true)
    (hletrans : ∀ a b c, lt b a = false → lt c b = false → lt c a = false)
    (ls : List (List α))
    (h : ∀ l ∈ ls, l.Pairwise (fun a b => lt b a = false)) :
    (kmergeBy lt ls).Pairwise (fun a b => lt b a = false) := by
  induction ls with
  | nil => simp [kmergeBy]
  | cons l ls ih =>
      have heq : kmergeBy lt (l :: ls) = merge2 lt l (kmergeBy lt ls) := rfl
      rw [heq]
      exact merge2_pairwise lt hasymm hltrans hletrans _ _
        (h l (by simp)) (ih (fun l' hl' => h l' (by simp [hl'])))

theorem dedupBy_sublist {α : Type} (eqb : α → α → Bool) :
    ∀ (l : List α), List.Sublist (dedupBy eqb l) l := by
  intro l
  induction l using dedupBy.induct eqb with
  | case1 => simp [dedupBy]
  | case2 a => simp [dedupBy]
  | case3 a b rest heq ih =>
      have hm : dedupBy eqb (a :: b :: rest) = dedupBy eqb (a :: rest) := by
        simp [dedupBy, heq]
      rw [hm]
      exact ih.trans ((List.sublist_cons_self b rest).cons_cons a)
  | case4 a b rest heq ih =>
      have hm : dedupBy eqb (a :: b :: rest) = a :: dedupBy eqb (b :: rest) := by
        simp [dedupBy, heq]
      rw [hm]
      exact ih.cons_cons a

theorem mem_dedupBy {α : Type} {eqb : α → α → Bool} {l : List α} {x : α}
    (h : x ∈ dedupBy eqb l) : x ∈ l :=
  (dedupBy_sublist eqb l).subset h

theorem dedupBy_pairwise {α : Type} {eqb : α → α → Bool} {R : α → α → Prop}
    {l : List α} (h : l.Pairwise R) : (dedupBy eqb l).Pairwise R :=
  List.Pairwise.sublist (dedupBy_sublist eqb l) h

theorem nodup_map_dedupBy {α κ : Type} (k : α → κ) (eqb : α → α → Bool)
    (le : α → α → Prop) :
    ∀ (l : List α), l.Pairwise le →
      (∀ a ∈ l, ∀ b ∈ l, (eqb a b = true ↔ k a = k b)) →
      (∀ a ∈ l, ∀ b ∈ l, ∀ c ∈ l, le a b → le b c → le a c) →
      (∀ a ∈ l, ∀ b ∈ l, le a b → le b a → k a = k b) →
      (∀ a ∈ l, ∀ b ∈ l, k a = k b → le a b) →
      ((dedupBy eqb l).map k).Nodup := by
  intro l
  induction l using dedupBy.induct eqb with
  | case1 => simp [dedupBy]
  | case2 a => simp [dedupBy]
  | case3 a b rest heqab ih =>
      intro hs heq htrans hanti hrefl
      have hm : dedupBy eqb (a :: b :: rest) = dedupBy eqb (a :: rest) := by
        simp [dedupBy, heqab]
      rw [hm]
      rw [List.pairwise_cons] at hs
      obtain ⟨ha, hs2⟩ := hs
      rw [List.pairwise_cons] at hs2
      obtain ⟨_, hrest⟩ := hs2
      have hsub : ∀ z, z ∈ a :: rest → z ∈ a :: b :: rest := by
        intro z hz
        rcases List.mem_cons.mp hz with rfl | hz2
        · exact List.mem_cons_self _ _
        · exact List.mem_cons_of_mem a (List.mem_cons_of_mem b hz2)
      apply ih
      · rw [List.pairwise_cons]
        exact ⟨fun x hx => ha x (List.mem_cons_of_mem b hx), hrest⟩
      · intro x hx y hy
        exact heq x (hsub x hx) y (hsub y hy)
      · intro x hx y hy z hz
        exact htrans x (hsub x hx) y (hsub y hy) z (hsub z hz)
      · intro x hx y hy
        exact hanti x (hsub x hx) y (hsub y hy)
      · intro x hx y hy
        exact hrefl x (hsub x hx) y (hsub y hy)
  | case4 a b rest heqab ih =>
      intro hs heq htrans hanti hrefl
      have hm : dedupBy eqb (a :: b :: rest) = a :: dedupBy eqb (b :: rest) := by
        simp [dedupBy, heqab]
      rw [hm, List.map_cons, List.nodup_cons]
      rw [List.pairwise_cons] at hs
      obtain ⟨ha, hbrest⟩ := hs
      have hsub : ∀ z, z ∈ b :: rest → z ∈ a :: b :: rest :=
        fun z hz => List.mem_cons_of_mem a hz
      constructor
      · intro hmem
        rw [List.mem_map] at hmem
        obtain ⟨x, hxd, hkx⟩ := hmem
        have hxm : x ∈ b :: rest := mem_dedupBy hxd
        have hab : k a = k b := by
          rcases List.mem_cons.mp hxm with rfl | hxrest
          · exact hkx.symm
          · have hxmem : x ∈ a :: b :: rest :=
              List.mem_cons_of_mem a (List.mem_cons_of_mem b hxrest)
            rw [List.pairwise_cons] at hbrest
            have hbx : le b x := hbrest.1 x hxrest
            have hxa : le x a := hrefl x hxmem a (by simp) hkx
            have hba : le b a := htrans b (by simp) x hxmem a (by simp) hbx hxa
            have hab2 : le a b := ha b (by simp)
            exact hanti a (by simp) b (by simp) hab2 hba
        have hcontra : eqb a b = true :=
          (heq a (by simp) b (by simp)).mpr hab
        simp [hcontra] at heqab
      · exact ih hbrest
          (fun x hx y hy => heq x (hsub x hx) y (hsub y hy))
          (fun x hx y hy z hz =>
            htrans x (hsub x hx) y (hsub y hy) z (hsub z hz))
          (fun x hx y hy => hanti x (hsub x hx) y (hsub y hy))
          (fun x hx y hy => hrefl x (hsub x hx) y (hsub y hy))

theorem exists_mem_dedupBy {α κ : Type} (k : α → κ) (eqb : α → α → Bool) :
    ∀ (l : List α), (∀ a ∈ l, ∀ b ∈ l, (eqb a b = true ↔ k a = k b)) →
      ∀ x ∈ l, ∃ y ∈ dedupBy eqb l, k y = k x := by
  intro l
  induction l using dedupBy.induct eqb with
  | case1 => intro _ x hx; cases hx
  | case2 a =>
      intro _ x hx
      rcases List.mem_cons.mp hx with rfl | h
      · exact ⟨x, by simp [dedupBy]⟩
      · cases h
  | case3 a b rest heqab ih =>
      intro heq x hx
      have hab : k a = k b := (heq a (by simp) b (by simp)).mp heqab
      have hm : dedupBy eqb (a :: b :: rest) = dedupBy eqb (a :: rest) := by
        simp [dedupBy, heqab]
      rw [hm]
      have hsub : ∀ z, z ∈ a :: rest → z ∈ a :: b :: rest := by
        intro z hz
        rcases List.mem_cons.mp hz with rfl | hz2
        · exact List.mem_cons_self _ _
        · exact List.mem_cons_of_mem a (List.mem_cons_of_mem b hz2)
      have heq2 : ∀ a2 ∈ a :: rest, ∀ b2 ∈ a :: rest, (eqb a2 b2 = true ↔ k a2 = k b2) :=
        fun a2 ha2 b2 hb2 => heq a2 (hsub a2 ha2) b2 (hsub b2 hb2)
      rcases List.mem_cons.mp hx with rfl | hx2
      · exact ih heq2 x (by simp)
      · rcases List.mem_cons.mp hx2 with rfl | hx3
        · obtain ⟨y, hy, hky⟩ := ih heq2 a (by simp)
          exact ⟨y, hy, hky.trans hab⟩
        · exact ih heq2 x (List.mem_cons_of_mem a hx3)
  | case4 a b rest heqab ih =>
      intro heq x hx
      have hm : dedupBy eqb (a :: b :: rest) = a :: dedupBy eqb (b :: rest) := by
        simp [dedupBy, heqab]
      rw [hm]
      have heq2 : ∀ a2 ∈ b :: rest, ∀ b2 ∈ b :: rest, (eqb a2 b2 = true ↔ k a2 = k b2) :=
        fun a2 ha2 b2 hb2 =>
          heq a2 (List.mem_cons_of_mem a ha2) b2 (List.mem_cons_of_mem a hb2)
      rcases List.mem_cons.mp hx with rfl | hx2
      · exact ⟨x, by simp⟩
      · obtain ⟨y, hy, hky⟩ := ih heq2 x hx2
        exact ⟨y, List.mem_cons_of_mem a hy, hky⟩

theorem dedupFirstById_subset {r : Record} :
    ∀ (seen : List PointId) (l : List Record),
      r ∈ dedupFirstById seen l → r ∈ l := by
  intro seen l
  induction l generalizing seen with
  | nil => intro h; cases h
  | cons x rest ih =>
      intro h
      by_cases hx : x.id ∈ seen
      · simp only [dedupFirstById, if_pos hx] at h
        exact List.mem_cons_of_mem x (ih seen h)
      · simp only [dedupFirstById, if_neg hx] at h
        rcases List.mem_cons.mp h with rfl | h2
        · exact List.mem_cons_self _ _
        · exact List.mem_cons_of_mem x (ih _ h2)

theorem nodup_dedupFirstById :
    ∀ (seen : List PointId) (l : List Record),
      ((dedupFirstById seen l).map Record.id).Nodup ∧
        ∀ r ∈ dedupFirstById seen l, r.id ∉ seen := by
  intro seen l
  induction l generalizing seen with
  | nil => simp [dedupFirstById]
  | cons x rest ih =>
      by_cases hx : x.id ∈ seen
      · simp only [dedupFirstById, if_pos hx]
        exact ih seen
      · simp only [dedupFirstById, if_neg hx, List.map_cons, List.nodup_cons]
        obtain ⟨hnd, hseen⟩ := ih (x.id :: seen)
        refine ⟨⟨?_, hnd⟩, ?_⟩
        · intro hmem
          rw [List.mem_map] at hmem
          obtain ⟨y, hy, hky⟩ := hmem
          exact hseen y hy (by rw [hky]; exact List.mem_cons_self _ _)
        · intro r hr
          rcases List.mem_cons.mp hr with rfl | hr2
          · exact hx
          · intro hc
            exact hseen r hr2 (List.mem_cons_of_mem _ hc)

theorem firstError_eq_none_iff {α : Type}
    (rs : List (Except CollectionError α)) :
    firstError rs = none ↔ countErrors rs = 0 := by
  induction rs with
  | nil => simp [firstError, countErrors]
  | cons r rest ih =>
      cases r with
      | error e => simp [firstError, countErrors, List.countP_cons]
      | ok v =>
          simp only [firstError, countErrors, List.countP_cons] at ih ⊢
          simpa using ih

theorem updateAllLocalLoop_error :
    ∀ (rs : List (CollectionResult (Option UpdateResult)))
      (acc : Option UpdateResult) (e : CollectionError),
      firstError rs = some e → updateAllLocalLoop acc rs = .error e := by
  intro rs
  induction rs with
  | nil => intro acc e h; simp [firstError] at h
  | cons r rest ih =>
      intro acc e h
      cases r with
      | error e2 =>
          simp only [firstError, Option.some.injEq] at h
          simp [updateAllLocalLoop, h]
      | ok u =>
          simp only [firstError] at h
          simp only [updateAllLocalLoop]
          exact ih _ e h

theorem updateAllLocalLoop_ok :
    ∀ (rs : List (CollectionResult (Option UpdateResult)))
      (acc : Option UpdateResult),
      firstError rs = none →
      updateAllLocalLoop acc rs = .ok (acc.or (firstSomeOk rs)) := by
  intro rs
  induction rs with
  | nil => intro acc _; simp [updateAllLocalLoop, firstSomeOk]
  | cons r rest ih =>
      intro acc h
      cases r with
      | error e => simp [firstError] at h
      | ok u =>
          simp only [firstError] at h
          simp only [updateAllLocalLoop]
          rw [ih _ h]
          cases acc with
          | some a => simp [firstSomeOk, Option.or]
          | none =>
              cases u with
              | some x => simp [firstSomeOk, Option.or]
              | none => simp [firstSomeOk, Option.or]

theorem keyLT_asymm (dir : Direction) (a b : OrderValue × Record)
    (h : keyLT dir a b = true) : keyLT dir b a = false := by
  cases dir <;> simp [keyLT] at h ⊢
  · rcases h with h | ⟨h1, h2⟩
    · exact ⟨le_of_lt h, fun hyx => (lt_irrefl _ (hyx ▸ h)).elim⟩
    · exact ⟨le_of_eq h1, fun _ => le_of_lt h2⟩
  · rcases h with h | ⟨h1, h2⟩
    · exact ⟨le_of_lt h, fun hba => (lt_irrefl _ (hba ▸ h)).elim⟩
    · exact ⟨le_of_eq h1.symm, fun _ => le_of_lt h2⟩

theorem keyLT_trans (dir : Direction) (a b c : OrderValue × Record)
    (h1 : keyLT dir a b = true) (h2 : keyLT dir b c = true) :
    keyLT dir a c = true := by
  cases dir <;> simp [keyLT] at h1 h2 ⊢
  · rcases h1 with h1 | ⟨h1e, h1l⟩ <;> rcases h2 with h2 | ⟨h2e, h2l⟩
    · exact Or.inl (lt_trans h1 h2)
    · exact Or.inl (lt_of_lt_of_eq h1 h2e)
    · exact Or.inl (lt_of_eq_of_lt h1e h2)
    · exact Or.inr ⟨h1e.trans h2e, lt_trans h1l h2l⟩
  · rcases h1 with h1 | ⟨h1e, h1l⟩ <;> rcases h2 with h2 | ⟨h2e, h2l⟩
    · exact Or.inl (lt_trans h2 h1)
    · exact Or.inl (lt_of_eq_of_lt h2e.symm h1)
    · exact Or.inl (lt_of_lt_of_eq h2 h1e.symm)
    · exact Or.inr ⟨h1e.trans h2e, lt_trans h2l h1l⟩

theorem keyLE_trans (dir : Direction) (a b c : OrderValue × Record)
    (h1 : keyLT dir b a = false) (h2 : keyLT dir c b = false) :
    keyLT dir c a = false := by
  cases dir <;> simp [keyLT] at h1 h2 ⊢
  · refine ⟨le_trans h1.1 h2.1, fun hzx => ?_⟩
    have hyx : b.1 = a.1 := le_antisymm (hzx ▸ h2.1) h1.1
    have hzy : c.1 = b.1 := hzx.trans hyx.symm
    exact le_trans (h1.2 hyx) (h2.2 hzy)
  · refine ⟨le_trans h2.1 h1.1, fun hca => ?_⟩
    have hba : b.1 = a.1 := le_antisymm h1.1 (hca ▸ h2.1)
    have hcb : c.1 = b.1 := hca.trans hba.symm
    exact le_trans (h2.2 hcb) (h1.2 hba)

theorem keyLE_antisymm (dir : Direction) (a b : OrderValue × Record)
    (h1 : keyLT dir b a = false) (h2 : keyLT dir a b = false) :
    a.1 = b.1 ∧ a.2.id = b.2.id := by
  cases dir <;> simp [keyLT] at h1 h2
  · have hxy : a.1 = b.1 := le_antisymm h1.1 h2.1
    exact ⟨hxy, le_antisymm (h1.2 hxy.symm) (h2.2 hxy)⟩
  · have hxy : a.1 = b.1 := le_antisymm h2.1 h1.1
    exact ⟨hxy, le_antisymm (h2.2 hxy) (h1.2 hxy.symm)⟩

theorem keyLE_of_key_eq (dir : Direction) (a b : OrderValue × Record)
    (h1 : a.1 = b.1) (h2 : a.2.id = b.2.id) : keyLT dir b a = false := by
  cases dir <;> simp [keyLT]
  · exact ⟨le_of_eq h1, fun _ => le_of_eq h2⟩
  · exact ⟨le_of_eq h1.symm, fun _ => le_of_eq h2.symm⟩

/-! ### Claim theorems -/

/-- C4: `update_all_local` collects one outcome per local shard (no
short-circuiting combinator), then propagates the first error encountered
if any shard failed, otherwise returns the first non-empty success result,
and returns `Ok(None)` (not an error) when there are zero local shards. -/
theorem update_all_local_spec (all_shards : List UpdateShard)
    (operation : CollectionUpdateOperations) (wait : Bool) :
    (all_shards.map
        (fun shard =>
          shard.update_local (OperationWithClockTag.fromOp operation) wait)).length =
      all_shards.length ∧
    (all_shards = [] → update_all_local all_shards operation wait = .ok none) ∧
    (∀ e, firstError (all_shards.map
        (fun shard =>
          shard.update_local (OperationWithClockTag.fromOp operation) wait)) = some e →
      update_all_local all_shards operation wait = .error e) ∧
    (firstError (all_shards.map
        (fun shard =>
          shard.update_local (OperationWithClockTag.fromOp operation) wait)) = none →
      update_all_local all_shards operation wait =
        .ok (firstSomeOk (all_shards.map
          (fun shard =>
            shard.update_local (OperationWithClockTag.fromOp operation) wait)))) := by
  refine ⟨List.length_map _ _, ?_, ?_, ?_⟩
  · rintro rfl; rfl
  · intro e he
    exact updateAllLocalLoop_error _ none e he
  · intro h
    have hh := updateAllLocalLoop_ok _ none h
    simpa [update_all_local, Option.or] using hh

/-- C4 witness: with shards [ok, failing], the first error is propagated;
with zero local shards the result is `Ok(None)`. -/
theorem update_all_local_spec_witness :
    update_all_local [fixOkShard, fixErrShard] { op_id := 1 } true =
      .error (.serviceError "boom") ∧
    update_all_local [] { op_id := 1 } true = .ok none := by
  constructor
  · exact (update_all_local_spec [fixOkShard, fixErrShard] { op_id := 1 } true).2.2.1
      (.serviceError "boom") rfl
  · exact (update_all_local_spec [] { op_id := 1 } true).2.1 rfl

/-- Classification of a collected result list, shared shape of the
`update_from_client` outcome analysis. -/
theorem classifyClientResults_spec
    (results : List (CollectionResult UpdateResult)) :
    (results = [] → classifyClientResults results =
      .error (.badRequest "Empty update request")) ∧
    (∀ e, firstError results = some e → countErrors results < results.length →
      classifyClientResults results =
        .error (.inconsistentShardFailure results.length (countErrors results) e)) ∧
    (∀ e, firstError results = some e → countErrors results = results.length →
      classifyClientResults results = .error e) ∧
    (firstError results = none → results ≠ [] →
      ∃ r, classifyClientResults results = .ok r ∧ Except.ok r ∈ results) := by
  refine ⟨?_, ?_, ?_, ?_⟩
  · rintro rfl; rfl
  · intro e he hlt
    have hne : results.isEmpty = false := by
      cases results with
      | nil => simp [firstError] at he
      | cons r rest => rfl
    simp [classifyClientResults, hne, he, hlt]
  · intro e he heq
    have hne : results.isEmpty = false := by
      cases results with
      | nil => simp [firstError] at he
      | cons r rest => rfl
    simp [classifyClientResults, hne, he, heq]
  · intro hnone hrne
    have hcount : countErrors results = 0 := (firstError_eq_none_iff results).mp hnone
    have hallok : ∀ r ∈ results, ∃ v, r = Except.ok v := by
      intro r hr
      have hp := List.countP_eq_zero.mp hcount r hr
      cases r with
      | error e => simp at hp
      | ok v => exact ⟨v, rfl⟩
    have hlast := List.getLast?_eq_getLast_of_ne_nil hrne
    have hmem : results.getLast hrne ∈ results := List.getLast_mem hrne
    obtain ⟨v, hv⟩ := hallok _ hmem
    refine ⟨v, ?_, by rw [← hv]; exact hmem⟩
    have hempty : results.isEmpty = false := by
      cases results with
      | nil => exact absurd rfl hrne
      | cons r rest => rfl
    simp [classifyClientResults, hempty, hnone, hlast, hv]

/-- C2: `update_from_client` dispatching N shard sub-operations fails with
a bad-request "empty update" error when N = 0; returns
`InconsistentShardFailure` with `shards_total = N`, `shards_failed = k`
and the first underlying error when `0 < k < N` sub-operations fail;
propagates the first underlying error unwrapped when all N fail; and
returns one of the successful results when none fail. -/
theorem update_from_client_spec
    (split_by_shard : CollectionUpdateOperations → Option ShardKey →
      CollectionResult (List (UpdateShard × CollectionUpdateOperations)))
    (operation : CollectionUpdateOperations) (wait : Bool)
    (ordering : WriteOrdering) (sel : Option ShardKey)
    (pairs : List (UpdateShard × CollectionUpdateOperations))
    (hval : operation.validate_result = none)
    (hsplit : split_by_shard operation sel = .ok pairs) :
    (pairs.map (fun p => p.1.update_with_consistency p.2 wait ordering)).length =
      pairs.length ∧
    (pairs = [] → update_from_client split_by_shard operation wait ordering sel =
      .error (.badRequest "Empty update request")) ∧
    (∀ e, firstError (pairs.map
          (fun p => p.1.update_with_consistency p.2 wait ordering)) = some e →
      countErrors (pairs.map
          (fun p => p.1.update_with_consistency p.2 wait ordering)) <
        (pairs.map (fun p => p.1.update_with_consistency p.2 wait ordering)).length →
      update_from_client split_by_shard operation wait ordering sel =
        .error (.inconsistentShardFailure
          (pairs.map (fun p => p.1.update_with_consistency p.2 wait ordering)).length
          (countErrors (pairs.map
            (fun p => p.1.update_with_consistency p.2 wait ordering)))
          e)) ∧
    (∀ e, firstError (pairs.map
          (fun p => p.1.update_with_consistency p.2 wait ordering)) = some e →
      countErrors (pairs.map
          (fun p => p.1.update_with_consistency p.2 wait ordering)) =
        (pairs.map (fun p => p.1.update_with_consistency p.2 wait ordering)).length →
      update_from_client split_by_shard operation wait ordering sel = .error e) ∧
    (firstError (pairs.map
          (fun p => p.1.update_with_consistency p.2 wait ordering)) = none →
      pairs ≠ [] →
      ∃ r, update_from_client split_by_shard operation wait ordering sel = .ok r ∧
        Except.ok r ∈
          pairs.map (fun p => p.1.update_with_consistency p.2 wait ordering)) := by
  have hu : update_from_client split_by_shard operation wait ordering sel =
      classifyClientResults
        (pairs.map (fun p => p.1.update_with_consistency p.2 wait ordering)) := by
    simp [update_from_client, CollectionUpdateOperations.validate, hval, hsplit]
  have hc := classifyClientResults_spec
    (pairs.map (fun p => p.1.update_with_consistency p.2 wait ordering))
  refine ⟨List.length_map _ _, ?_, ?_, ?_, ?_⟩
  · rintro rfl
    rw [hu]
    exact hc.1 rfl
  · intro e he hlt
    rw [hu]
    exact hc.2.1 e he hlt
  · intro e he heq
    rw [hu]
    exact hc.2.2.1 e he heq
  · intro hnone hpne
    rw [hu]
    exact hc.2.2.2 hnone (by simpa [List.map_eq_nil_iff] using hpne)

/-- C2 witness: one successful and one failing shard out of two yields
`InconsistentShardFailure` with totals (2, 1) around the first error. -/
theorem update_from_client_spec_witness :
    update_from_client fixSplit2 { op_id := 1 } true .weak none =
      .error (.inconsistentShardFailure 2 1 (.serviceError "boom")) := by
  exact (update_from_client_spec fixSplit2 { op_id := 1 } true .weak none
    [(fixOkShard, { op_id := 1 }), (fixErrShard, { op_id := 1 })] rfl rfl).2.2.1
    (.serviceError "boom") rfl (by decide)

/-- C7: `update_from_peer` with `Weak` ordering applies the operation
directly via `update_local` with its clock tag preserved; with `Medium` or
`Strong` ordering it routes through `update_with_consistency` with the
clock tag stripped (so the result is independent of the tag); and when the
named shard does not exist locally it fails with `PreconditionFailed`. -/
theorem update_from_peer_spec (get_shard : ShardId → Option UpdateShard)
    (operation : OperationWithClockTag) (shard_selection : ShardId)
    (wait : Bool) :
    (get_shard shard_selection = none →
      ∀ ordering, update_from_peer get_shard operation shard_selection wait ordering =
        .error (.preConditionFailed
          ("No target shard " ++ toString shard_selection ++ " found for update"))) ∧
    (∀ shard, get_shard shard_selection = some shard →
      (update_from_peer get_shard operation shard_selection wait .weak =
        match shard.update_local operation wait with
        | .error e => .error e
        | .ok (some r) => .ok r
        | .ok none =>
            .error (.preConditionFailed
              ("No target shard " ++ toString shard_selection ++ " found for update"))) ∧
      (∀ ordering, (ordering = .medium ∨ ordering = .strong) →
        (update_from_peer get_shard operation shard_selection wait ordering =
          match shard.update_with_consistency operation.operation wait ordering with
          | .error e => .error e
          | .ok r => .ok r) ∧
        update_from_peer get_shard operation shard_selection wait ordering =
          update_from_peer get_shard { operation with clock_tag := none }
            shard_selection wait ordering)) := by
  constructor
  · intro hmiss ordering
    simp [update_from_peer, hmiss]
  · intro shard hshard
    constructor
    · simp only [update_from_peer, hshard]
    · intro ordering hord
      have hmatch : ∀ (op : OperationWithClockTag),
          update_from_peer get_shard op shard_selection wait ordering =
            match shard.update_with_consistency op.operation wait ordering with
            | .error e => .error e
            | .ok r => .ok r := by
        intro op
        simp only [update_from_peer, hshard]
        rcases hord with rfl | rfl
        · cases h : shard.update_with_consistency op.operation wait .medium <;>
            simp [h, Except.map]
        · cases h : shard.update_with_consistency op.operation wait .strong <;>
            simp [h, Except.map]
      exact ⟨hmatch operation,
        (hmatch operation).trans (hmatch { operation with clock_tag := none }).symm⟩

/-- C7 witness: at the concrete shard map, `Weak` preserves the clock tag
(the result reflects the tag's tick), `Medium` strips it, and a missing
shard id yields `PreconditionFailed`. -/
theorem update_from_peer_spec_witness :
    update_from_peer fixGetShard fixTaggedOp 0 true .weak = .ok 44 ∧
    update_from_peer fixGetShard fixTaggedOp 0 true .medium = .ok 41 ∧
    update_from_peer fixGetShard fixTaggedOp 1 true .weak =
      .error (.preConditionFailed "No target shard 1 found for update") := by
  refine ⟨?_, ?_, ?_⟩
  · exact (((update_from_peer_spec fixGetShard fixTaggedOp 0 true).2
      fixPeerShard rfl).1).trans rfl
  · exact ((((update_from_peer_spec fixGetShard fixTaggedOp 0 true).2
      fixPeerShard rfl).2 .medium (Or.inl rfl)).1).trans rfl
  · exact ((update_from_peer_spec fixGetShard fixTaggedOp 1 true).1 rfl .weak).trans rfl

/-- When both validation checks pass and shard selection succeeded, a
scroll returns some successful result. -/
theorem ite_ok_exists {c : Prop} [Decidable c] (a b : ScrollResult) :
    ∃ res, (if c then (Except.ok a : CollectionResult ScrollResult) else .ok b) =
      .ok res := by
  by_cases h : c <;> simp [h]

theorem scroll_by_ok_shape (ts : List (ScrollShard × Option ShardKey))
    (rf : Option Filter) (rid : Option ShardId)
    (request : ScrollRequestInternal) (localOnly : Bool)
    (h1 : (request.order_by.isSome && request.offset.isSome) = false)
    (h2 : request.limit.getD defaultScrollLimit ≠ 0) :
    ∃ res, scroll_by (.ok ts) rf rid request localOnly = .ok res := by
  have h2b : (request.limit.getD defaultScrollLimit == 0) = false := by
    simpa using h2
  simp only [scroll_by, h1, h2b, Bool.false_eq_true, if_false]
  exact ite_ok_exists _ _

/-- A scroll over a successfully selected shard set reports the zero-limit
error only when the effective limit is zero. -/
theorem scroll_by_limit_error_getD (ts : List (ScrollShard × Option ShardKey))
    (rf : Option Filter) (rid : Option ShardId)
    (request : ScrollRequestInternal) (localOnly : Bool)
    (h : scroll_by (.ok ts) rf rid request localOnly =
      .error (.badRequest "Limit cannot be 0")) :
    request.limit.getD defaultScrollLimit = 0 := by
  by_cases h1 : (request.order_by.isSome && request.offset.isSome) = true
  · rw [scroll_by] at h
    simp [h1] at h
  · by_cases h0 : request.limit.getD defaultScrollLimit = 0
    · exact h0
    · obtain ⟨res, hres⟩ := scroll_by_ok_shape ts rf rid request localOnly
        (by simpa using h1) h0
      rw [hres] at h
      cases h

/-- C8: validation errors are raised before any shard is contacted:
`scroll_by` returns `BadInput` when both an id offset and an ordering spec
are given, and `BadRequest` when the limit is 0, in each case for every
possible shard-selection outcome and shard behaviour; `update_from_client`
returns the operation's validation error for every splitter and shard
behaviour. -/
theorem validation_before_dispatch_spec :
    (∀ (selectResult : CollectionResult (List (ScrollShard × Option ShardKey)))
        (rf : Option Filter) (rid : Option ShardId)
        (request : ScrollRequestInternal) (localOnly : Bool),
      request.order_by.isSome = true → request.offset.isSome = true →
      scroll_by selectResult rf rid request localOnly =
        .error (.badInput
          "Cannot use an `offset` when using `order_by`. The alternative for paging is to use `order_by.start_from` and a filter to exclude the IDs that you have already seen for the `order_by.start_from` value")) ∧
    (∀ (selectResult : CollectionResult (List (ScrollShard × Option ShardKey)))
        (rf : Option Filter) (rid : Option ShardId)
        (request : ScrollRequestInternal) (localOnly : Bool),
      (request.order_by.isSome && request.offset.isSome) = false →
      request.limit = some 0 →
      scroll_by selectResult rf rid request localOnly =
        .error (.badRequest "Limit cannot be 0")) ∧
    (∀ (split_by_shard : CollectionUpdateOperations → Option ShardKey →
          CollectionResult (List (UpdateShard × CollectionUpdateOperations)))
        (operation : CollectionUpdateOperations) (wait : Bool)
        (ordering : WriteOrdering) (sel : Option ShardKey) (e : CollectionError),
      operation.validate_result = some e →
      update_from_client split_by_shard operation wait ordering sel = .error e) := by
  refine ⟨?_, ?_, ?_⟩
  · intro selectResult rf rid request localOnly hob hoff
    simp [scroll_by, hob, hoff]
  · intro selectResult rf rid request localOnly hcond hlim
    simp [scroll_by, hcond, hlim]
  · intro split_by_shard operation wait ordering sel e hval
    simp [update_from_client, CollectionUpdateOperations.validate, hval]

/-- C8 witness: concrete requests hitting each validation error before any
shard data is consulted. -/
theorem validation_before_dispatch_spec_witness :
    scroll_by (.ok []) none none
        { offset := some 1, limit := some 5, order_by := some fixOb } false =
      .error (.badInput
        "Cannot use an `offset` when using `order_by`. The alternative for paging is to use `order_by.start_from` and a filter to exclude the IDs that you have already seen for the `order_by.start_from` value") ∧
    scroll_by (.ok []) none none { limit := some 0 } false =
      .error (.badRequest "Limit cannot be 0") ∧
    update_from_client (fun _ _ => .ok [])
        { op_id := 0, validate_result := some (.badInput "op invalid") }
        true .weak none =
      .error (.badInput "op invalid") := by
  refine ⟨?_, ?_, ?_⟩
  · exact validation_before_dispatch_spec.1 (.ok []) none none
      { offset := some 1, limit := some 5, order_by := some fixOb } false rfl rfl
  · exact validation_before_dispatch_spec.2.1 (.ok []) none none
      { limit := some 0 } false rfl rfl
  · exact validation_before_dispatch_spec.2.2 (fun _ _ => .ok [])
      { op_id := 0, validate_result := some (.badInput "op invalid") }
      true .weak none (.badInput "op invalid") rfl

/-- C10: a scroll whose request omits the limit behaves exactly as if the
fixed nonzero default limit had been supplied, and the zero-limit
`BadRequest` error can only arise from an explicitly supplied limit of 0,
never from an omitted limit. -/
theorem scroll_by_default_limit_spec :
    (∀ (selectResult : CollectionResult (List (ScrollShard × Option ShardKey)))
        (rf : Option Filter) (rid : Option ShardId)
        (request : ScrollRequestInternal) (localOnly : Bool),
      request.limit = none →
      scroll_by selectResult rf rid request localOnly =
        scroll_by selectResult rf rid
          { request with limit := some defaultScrollLimit } localOnly) ∧
    defaultScrollLimit ≠ 0 ∧
    (∀ (ts : List (ScrollShard × Option ShardKey))
        (rf : Option Filter) (rid : Option ShardId)
        (request : ScrollRequestInternal) (localOnly : Bool),
      request.limit = none →
      scroll_by (.ok ts) rf rid request localOnly ≠
        .error (.badRequest "Limit cannot be 0")) ∧
    (∀ (ts : List (ScrollShard × Option ShardKey))
        (rf : Option Filter) (rid : Option ShardId)
        (request : ScrollRequestInternal) (localOnly : Bool),
      scroll_by (.ok ts) rf rid request localOnly =
        .error (.badRequest "Limit cannot be 0") →
      request.limit = some 0) := by
  refine ⟨?_, by simp [defaultScrollLimit], ?_, ?_⟩
  · intro selectResult rf rid request localOnly hlim
    simp [scroll_by, hlim]
  · intro ts rf rid request localOnly hlim hc
    have := scroll_by_limit_error_getD ts rf rid request localOnly hc
    rw [hlim] at this
    simp [defaultScrollLimit] at this
  · intro ts rf rid request localOnly hc
    have hg := scroll_by_limit_error_getD ts rf rid request localOnly hc
    cases hl : request.limit with
    | none => rw [hl] at hg; simp [defaultScrollLimit] at hg
    | some L => rw [hl] at hg; simp at hg; subst hg; rfl

/-- C10 witness: a scroll with an omitted limit equals the same scroll
with the default limit supplied, and does not hit the zero-limit error. -/
theorem scroll_by_default_limit_spec_witness :
    scroll_by (.ok [(fixShardU1, none), (fixShardU2, none)]) none none {} false =
      scroll_by (.ok [(fixShardU1, none), (fixShardU2, none)]) none none
        { limit := some defaultScrollLimit } false ∧
    scroll_by (.ok [(fixShardU1, none), (fixShardU2, none)]) none none {} false ≠
      .error (.badRequest "Limit cannot be 0") := by
  constructor
  · exact scroll_by_default_limit_spec.1
      (.ok [(fixShardU1, none), (fixShardU2, none)]) none none {} false rfl
  · exact scroll_by_default_limit_spec.2.2.1
      [(fixShardU1, none), (fixShardU2, none)] none none {} false rfl

/-- C5: with resharding active, `count` sends the resharding-merged
request to every selected shard except the migration target, the original
request to the migration target, and returns the sum of the per-shard
counts; with resharding inactive every shard receives the original
request. -/
theorem count_spec (shards : List (CountShard × Option ShardKey))
    (request : CountRequestInternal) (rf : Filter) (target : ShardId) :
    count shards (some rf) (some target) request =
      (shards.map (fun sk =>
        sk.1.countFn
          (if sk.1.shard_id = target then request
           else { request with
                    filter := mergeFilters request.filter (some rf) }))).sum ∧
    (∀ rid, count shards none rid request =
      (shards.map (fun sk => sk.1.countFn request)).sum) := by
  constructor
  · simp only [count]
    congr 1
    apply List.map_congr_left
    intro sk _
    by_cases h : sk.1.shard_id = target <;>
      simp [countShardRequest, normal_and_resharding_count_request, h]
  · intro rid
    simp [count, countShardRequest, normal_and_resharding_count_request]

/-- Shard-key stamping never changes a record's point id. -/
theorem mem_stampShardKey_id {k : Option ShardKey} {l : List Record}
    {r : Record} (h : r ∈ stampShardKey k l) : ∃ r2 ∈ l, r.id = r2.id := by
  cases k with
  | none => exact ⟨r, h, rfl⟩
  | some key =>
      simp only [stampShardKey, List.mem_map] at h
      obtain ⟨r2, hr2, heq⟩ := h
      exact ⟨r2, hr2, by rw [← heq]⟩

/-- C6: `retrieve` with resharding active post-filters every
non-migration-target shard's fetched records by the resharding-exclusion
predicate while sending the unmodified request to every shard, returns
each point id at most once, and any returned record whose id satisfies the
predicate comes from the migration-target shard's contribution. -/
theorem retrieve_spec (targetShards : List (RetrieveShard × Option ShardKey))
    (check : PointId → Bool) (target : ShardId)
    (request : PointRequestInternal) :
    retrieve targetShards (some check) (some target) request =
      dedupFirstById []
        ((targetShards.map
          (retrieveShardRecords request (some check) (some target))).flatten) ∧
    (∀ sk ∈ targetShards, sk.1.shard_id ≠ target →
      retrieveShardRecords request (some check) (some target) sk =
        stampShardKey sk.2
          ((sk.1.retrieveFn request).filter (fun r => !check r.id))) ∧
    ((retrieve targetShards (some check) (some target) request).map
      Record.id).Nodup ∧
    (∀ r ∈ retrieve targetShards (some check) (some target) request,
      check r.id = true →
      ∃ sk ∈ targetShards, sk.1.shard_id = target ∧
        r ∈ retrieveShardRecords request (some check) (some target) sk) := by
  refine ⟨rfl, ?_, (nodup_dedupFirstById [] _).1, ?_⟩
  · intro sk _ hne
    simp [retrieveShardRecords, hne]
  · intro r hr hcheck
    have hflat : r ∈ (targetShards.map
        (retrieveShardRecords request (some check) (some target))).flatten :=
      dedupFirstById_subset [] _ hr
    rw [List.mem_flatten] at hflat
    obtain ⟨c, hc, hrc⟩ := hflat
    rw [List.mem_map] at hc
    obtain ⟨sk, hsk, hceq⟩ := hc
    by_cases hid : sk.1.shard_id = target
    · exact ⟨sk, hsk, hid, by rw [hceq]; exact hrc⟩
    · exfalso
      rw [← hceq] at hrc
      rw [retrieveShardRecords] at hrc
      simp only [hid, ne_eq, Option.some.injEq, not_false_eq_true, if_pos] at hrc
      obtain ⟨r2, hr2, hrid⟩ := mem_stampShardKey_id hrc
      rw [List.mem_filter] at hr2
      have : check r2.id = false := by
        cases hcb : check r2.id
        · rfl
        · rw [hcb] at hr2; simp at hr2
      rw [hrid, this] at hcheck
      cases hcheck

/-- C6 witness: a point (id 5) that has migrated — present on both the old
shard and the target shard and satisfying the resharding predicate — is
returned once, from the target shard's contribution, and result ids are
unique. -/
theorem retrieve_spec_witness :
    ((retrieve [(fixRetOld, none), (fixRetTgt, none)] (some fixCheck) (some 1)
        fixPointReq).map Record.id).Nodup ∧
    (∃ sk ∈ [(fixRetOld, (none : Option ShardKey)), (fixRetTgt, none)],
      sk.1.shard_id = 1 ∧
      ({ id := 5, payload := some 99 } : Record) ∈
        retrieveShardRecords fixPointReq (some fixCheck) (some 1) sk) := by
  constructor
  · exact (retrieve_spec [(fixRetOld, none), (fixRetTgt, none)] fixCheck 1
      fixPointReq).2.2.1
  · exact (retrieve_spec [(fixRetOld, none), (fixRetTgt, none)] fixCheck 1
      fixPointReq).2.2.2 { id := 5, payload := some 99 } (by decide) rfl

/-- C3: an unordered scroll with nonzero limit L (below `usize::MAX`) asks
every shard for L + 1 points; the result is the flattened shard output
sorted ascending by id with duplicate ids dropped, truncated to L; the
returned points are sorted, unique and at most L; and `next_page_offset`
is the id of the (L+1)-th deduplicated point — present exactly when more
than L distinct points were available, and removed from the returned
set. -/
theorem scroll_by_unordered_spec
    (ts : List (ScrollShard × Option ShardKey)) (rf : Option Filter)
    (rid : Option ShardId) (request : ScrollRequestInternal)
    (localOnly : Bool) (L : Nat)
    (retrieved : List (List Record)) (dd : List Record)
    (hob : request.order_by = none) (hlim : request.limit = some L)
    (hL : L ≠ 0) (hmax : L < USIZE_MAX)
    (hret : retrieved = ts.map (scrollShardRecords request.offset (L + 1)
      (request.with_payload.getD defaultWithPayload) request.with_vector
      (normal_and_resharding_filter request.filter rf) rid localOnly none))
    (hdd : dd = unorderedDeduped retrieved) :
    scroll_by (.ok ts) rf rid request localOnly =
      .ok { points := dd.take L, next_page_offset := dd[L]?.map Record.id } ∧
    (dd.take L).length ≤ L ∧
    (dd.take L).Pairwise (fun a b => a.id ≤ b.id) ∧
    ((dd.take L).map Record.id).Nodup ∧
    (∀ i, i ∈ dd.map Record.id ↔ i ∈ retrieved.flatten.map Record.id) ∧
    (dd[L]?.isSome = true ↔ L < dd.length) ∧
    (∀ p, dd[L]? = some p → p.id ∉ (dd.take L).map Record.id) := by
  have htransb : ∀ a b c : Record,
      (decide (a.id ≤ b.id)) = true → (decide (b.id ≤ c.id)) = true →
      (decide (a.id ≤ c.id)) = true := by
    intro a b c h1 h2
    simp only [decide_eq_true_eq] at h1 h2 ⊢
    exact le_trans h1 h2
  have htotb : ∀ a b : Record,
      ((decide (a.id ≤ b.id)) || (decide (b.id ≤ a.id))) = true := by
    intro a b
    rcases le_total a.id b.id with h | h <;> simp [h]
  have hsort : (sortById retrieved.flatten).Pairwise
      (fun a b : Record => a.id ≤ b.id) := by
    have hs := List.sorted_mergeSort htransb htotb retrieved.flatten
    exact hs.imp (fun h => by simpa using h)
  have hddsort : dd.Pairwise (fun a b : Record => a.id ≤ b.id) := by
    rw [hdd]
    exact dedupBy_pairwise hsort
  have hddnodup : (dd.map Record.id).Nodup := by
    rw [hdd]
    exact nodup_map_dedupBy Record.id (fun a b => a.id == b.id)
      (fun a b => a.id ≤ b.id)
      _ hsort (fun a _ b _ => beq_iff_eq)
      (fun a _ b _ c _ h1 h2 => le_trans h1 h2)
      (fun a _ b _ h1 h2 => le_antisymm h1 h2)
      (fun a _ b _ h => le_of_eq h)
  have hsat : satAdd1 L = L + 1 := by
    unfold satAdd1
    exact Nat.min_eq_left hmax
  have hmain : scroll_by (.ok ts) rf rid request localOnly =
      .ok { points := dd.take L, next_page_offset := dd[L]?.map Record.id } := by
    have hL0 : (L == 0) = false := by simpa using hL
    have hmerge : unorderedScrollMerge (L + 1) retrieved = dd.take (L + 1) := by
      rw [hdd]; rfl
    rw [scroll_by]
    simp only [hob, hlim, Option.isSome_none, Bool.false_and, Bool.false_eq_true,
      if_false, Option.getD_some, hL0, Option.isNone_none, if_true, hsat,
      Option.isSome_some, Bool.or_false]
    rw [← hret, hmerge]
    rcases Nat.lt_or_ge L dd.length with hlen | hlen
    · have hlen2 : L + 1 ≤ dd.length := hlen
      have htklen : (dd.take (L + 1)).length = L + 1 := by
        rw [List.length_take]
        exact Nat.min_eq_left hlen2
      have hcond : ¬ (dd.take (L + 1)).length < L + 1 := by
        rw [htklen]; exact Nat.lt_irrefl _
      rw [if_neg (by simpa using hcond)]
      have hdrop : (dd.take (L + 1)).dropLast = dd.take L := by
        rw [List.dropLast_eq_take, htklen, List.take_take]
        simp
      have hlast : (dd.take (L + 1)).getLast? = dd[L]? := by
        rw [List.getLast?_eq_getElem?, htklen]
        simp only [Nat.add_sub_cancel]
        rw [List.getElem?_take]
        simp
      rw [hdrop, hlast]
    · have htk1 : dd.take (L + 1) = dd :=
        List.take_of_length_le (le_trans hlen (Nat.le_succ L))
      have htk0 : dd.take L = dd := List.take_of_length_le hlen
      have hcond : (dd.take (L + 1)).length < L + 1 := by
        rw [htk1]
        exact Nat.lt_succ_of_le hlen
      rw [if_pos (by simpa using hcond)]
      rw [htk1, htk0, List.getElem?_eq_none hlen]
      rfl
  refine ⟨hmain, List.length_take_le _ _, ?_, ?_, ?_, ?_, ?_⟩
  · exact List.Pairwise.sublist (List.take_sublist _ _) hddsort
  · rw [List.map_take]
    exact List.Nodup.sublist (List.take_sublist _ _) hddnodup
  · intro i
    constructor
    · intro hi
      rw [List.mem_map] at hi ⊢
      obtain ⟨r, hr, hrid⟩ := hi
      refine ⟨r, ?_, hrid⟩
      have hr2 : r ∈ sortById retrieved.flatten := by
        rw [hdd] at hr
        exact mem_dedupBy hr
      exact (List.mergeSort_perm retrieved.flatten _).mem_iff.mp hr2
    · intro hi
      rw [List.mem_map] at hi ⊢
      obtain ⟨r, hr, hrid⟩ := hi
      have hr2 : r ∈ sortById retrieved.flatten :=
        (List.mergeSort_perm retrieved.flatten _).mem_iff.mpr hr
      obtain ⟨y, hy, hky⟩ := exists_mem_dedupBy Record.id
        (fun a b => a.id == b.id) (sortById retrieved.flatten)
        (fun a _ b _ => beq_iff_eq) r hr2
      exact ⟨y, by rw [hdd]; exact hy, by rw [hky, hrid]⟩
  · rw [Option.isSome_iff_exists]
    constructor
    · rintro ⟨a, ha⟩
      exact (List.getElem?_eq_some_iff.mp ha).1
    · intro h
      exact ⟨dd[L], List.getElem?_eq_some_iff.mpr ⟨h, rfl⟩⟩
  · intro p hp hmem
    obtain ⟨hplen, hpeq⟩ := List.getElem?_eq_some_iff.mp hp
    rw [List.mem_map] at hmem
    obtain ⟨r, hr, hrid⟩ := hmem
    rw [List.mem_iff_getElem] at hr
    obtain ⟨j, hj, hjr⟩ := hr
    have hjL : j < L := by
      have := hj
      rw [List.length_take] at this
      omega
    have hjlen : j < dd.length := lt_trans hjL hplen
    have hjdd : dd[j] = r := by
      rw [← List.getElem_take dd]
      exact hjr
    have hjm : j < (dd.map Record.id).length := by simpa using hjlen
    have hLm : L < (dd.map Record.id).length := by simpa using hplen
    have hmapj : (dd.map Record.id)[j] = p.id := by
      rw [List.getElem_map]
      rw [hjdd, hrid]
    have hmapL : (dd.map Record.id)[L] = p.id := by
      rw [List.getElem_map]
      rw [hpeq]
    have hjL2 : j = L := hddnodup.getElem_inj_iff.mp (hmapj.trans hmapL.symm)
    omega

/-- C3 witness: two concrete shards, limit 2: the result is ids 1 and 2
sorted and unique, with next-page offset 5 (the third distinct id),
removed from the returned set. -/
theorem scroll_by_unordered_spec_witness :
    scroll_by (.ok [(fixShardU1, none), (fixShardU2, none)]) none none
        fixUnorderedReq false =
      .ok { points := [{ id := 1 }, { id := 2 }], next_page_offset := some 5 } := by
  have h := (scroll_by_unordered_spec [(fixShardU1, none), (fixShardU2, none)]
    none none fixUnorderedReq false 2 _ _ rfl rfl (by decide) (by decide)
    rfl rfl).1
  refine h.trans ?_
  simp [unorderedDeduped, sortById, dedupBy, List.mergeSort, fixShardU1,
    fixShardU2, scrollShardRecords, stampShardKey, effectiveScrollFilter,
    fixUnorderedReq, defaultWithPayload, normal_and_resharding_filter]

/-- C1 counterexample: an ordered scroll over two shards, each pre-sorted
ascending by (order value, id), where point id 1 appears in both shards
with different order values: the merged result keeps id 1 twice, because
the duplicate occurrences are not adjacent in the merged order. -/
theorem scroll_by_ordered_dedup_counterexample :
    (scroll_by (.ok [(fixShardA, none), (fixShardB, none)]) none none
        fixOrderedReq false).map
      (fun r => (r.points.map Record.id, r.next_page_offset)) =
      .ok ([1, 2, 1], none) ∧
    ¬ ([1, 2, 1] : List PointId).Nodup ∧
    ((fixShardA.scrollFn none 3 true false none false (some fixOb)).map
      (extractOrderValue fixOb false true)).Pairwise (keyLE Direction.asc) ∧
    ((fixShardB.scrollFn none 3 true false none false (some fixOb)).map
      (extractOrderValue fixOb false true)).Pairwise (keyLE Direction.asc) := by
  refine ⟨?_, by decide, by decide, by decide⟩
  simp [scroll_by, orderedScrollMerge, orderedDeduped, orderedMerged,
    orderedKeyed, kmergeBy, merge2, dedupBy, extractOrderValue,
    scrollShardRecords, stampShardKey, effectiveScrollFilter,
    normal_and_resharding_filter, fixShardA, fixShardB, fixOb, fixOrderedReq,
    keyLT, defaultWithPayload, WithPayloadI.isRequired, satAdd1, USIZE_MAX,
    Except.map]

/-- C1 (amended): for an ordered scroll over shards whose keyed per-shard
streams are pre-sorted by (order value, id) in the requested direction,
the merged result is globally sorted by (order value, id) in that
direction, has length at most the requested limit, and produces no
`next_page_offset`; duplicate point ids are removed only when their
occurrences are adjacent in the merged order — in particular, whenever all
merged occurrences of an id carry the same order value, each id appears at
most once (the first, hence best-ordered, occurrence wins); occurrences of
one id with different order values may all remain. -/
theorem scroll_by_ordered_merge_spec
    (ts : List (ScrollShard × Option ShardKey)) (rf : Option Filter)
    (rid : Option ShardId) (request : ScrollRequestInternal)
    (localOnly : Bool) (ob : OrderBy) (L : Nat)
    (retrieved : List (List Record))
    (merged : List (OrderValue × Record)) (dd : List (OrderValue × Record))
    (hob : request.order_by = some ob) (hoff : request.offset = none)
    (hlim : request.limit = some L) (hL : L ≠ 0)
    (hret : retrieved = ts.map (scrollShardRecords none L
      (request.with_payload.getD defaultWithPayload) request.with_vector
      (normal_and_resharding_filter request.filter rf) rid localOnly (some ob)))
    (hmerged : merged = orderedMerged ob localOnly
      (request.with_payload.getD defaultWithPayload) retrieved)
    (hdd : dd = orderedDeduped ob localOnly
      (request.with_payload.getD defaultWithPayload) retrieved)
    (hsorted : ∀ l ∈ orderedKeyed ob localOnly
      (request.with_payload.getD defaultWithPayload) retrieved,
      l.Pairwise (keyLE ob.direction)) :
    scroll_by (.ok ts) rf rid request localOnly =
      .ok { points := (dd.map Prod.snd).take L, next_page_offset := none } ∧
    ((dd.map Prod.snd).take L).length ≤ L ∧
    dd.Pairwise (keyLE ob.direction) ∧
    ((∀ a ∈ merged, ∀ b ∈ merged, a.2.id = b.2.id → a.1 = b.1) →
      (dd.map (fun a => a.2.id)).Nodup ∧
      (((dd.map Prod.snd).take L).map Record.id).Nodup) := by
  have hmergesorted : merged.Pairwise (keyLE ob.direction) := by
    rw [hmerged]
    exact kmergeBy_pairwise (keyLT ob.direction)
      (keyLT_asymm ob.direction) (keyLT_trans ob.direction)
      (keyLE_trans ob.direction) _ hsorted
  have hddsorted : dd.Pairwise (keyLE ob.direction) := by
    rw [hdd, orderedDeduped, ← hmerged]
    exact dedupBy_pairwise hmergesorted
  refine ⟨?_, List.length_take_le _ _, hddsorted, ?_⟩
  · have hL0 : (L == 0) = false := by simpa using hL
    rw [scroll_by]
    simp only [hob, hoff, hlim, Option.isSome_some, Option.isSome_none,
      Bool.and_false, Bool.false_eq_true, if_false, Option.getD_some, hL0,
      Option.isNone_some, Bool.or_true, if_true]
    rw [← hret]
    have hpts : orderedScrollMerge ob localOnly
        (request.with_payload.getD defaultWithPayload) L retrieved =
        (dd.map Prod.snd).take L := by
      rw [hdd]; rfl
    rw [hpts]
  · intro hvals
    have hnodup : (dd.map (fun a => a.2.id)).Nodup := by
      rw [hdd, orderedDeduped, ← hmerged]
      exact nodup_map_dedupBy (fun a => a.2.id)
        (fun a b => a.2.id == b.2.id) (keyLE ob.direction)
        merged hmergesorted
        (fun a _ b _ => beq_iff_eq)
        (fun a _ b _ c _ h1 h2 => keyLE_trans ob.direction a b c h1 h2)
        (fun a ha b hb h1 h2 => (keyLE_antisymm ob.direction a b h1 h2).2)
        (fun a ha b hb h => keyLE_of_key_eq ob.direction a b
          (hvals a ha b hb h) h)
    refine ⟨hnodup, ?_⟩
    have hmm : ((dd.map Prod.snd).take L).map Record.id =
        (dd.map (fun a => a.2.id)).take L := by
      rw [← List.map_take, List.map_map, ← List.map_take]
      rfl
    rw [hmm]
    exact List.Nodup.sublist (List.take_sublist _ _) hnodup

/-- C1 (amended) witness: two shards where the duplicated id 1 carries the
same order value in both: the merged result is sorted, unique and has no
next-page offset. -/
theorem scroll_by_ordered_merge_spec_witness :
    scroll_by (.ok [(fixShardC, none), (fixShardD, none)]) none none
        fixOrderedReq false =
      .ok { points :=
              [{ id := 1, order_value := some 1 },
               { id := 2, order_value := some 2 }],
            next_page_offset := none } ∧
    ([1, 2] : List PointId).Nodup := by
  have h := scroll_by_ordered_merge_spec [(fixShardC, none), (fixShardD, none)]
    none none fixOrderedReq false fixOb 3 _
    [(1, { id := 1, order_value := some 1 }),
     (1, { id := 1, order_value := some 1 }),
     (2, { id := 2, order_value := some 2 })]
    [(1, { id := 1, order_value := some 1 }),
     (2, { id := 2, order_value := some 2 })]
    rfl rfl rfl (by decide) rfl
    (by simp [orderedMerged, orderedKeyed, kmergeBy, merge2, extractOrderValue,
      scrollShardRecords, stampShardKey, effectiveScrollFilter,
      normal_and_resharding_filter, fixShardC, fixShardD, fixOb, fixOrderedReq,
      keyLT, defaultWithPayload, WithPayloadI.isRequired])
    (by simp [orderedDeduped, orderedMerged, orderedKeyed, kmergeBy, merge2,
      dedupBy, extractOrderValue, scrollShardRecords, stampShardKey,
      effectiveScrollFilter, normal_and_resharding_filter, fixShardC,
      fixShardD, fixOb, fixOrderedReq, keyLT, defaultWithPayload,
      WithPayloadI.isRequired])
    (by decide)
  exact ⟨h.1.trans rfl, (h.2.2.2 (by decide)).2⟩

end PointOps
